import Mathlib

/-!
# Verification of the Adala skill layer (`adala/skills/base.py`)

A shallow embedding of the skill abstraction: the skill descriptor and its
construction-time template validator, the batch executor (`BaseSkill.__call__`),
the skill driver (`LLMSkill.apply`), the error sampler inside
`LLMSkill.analyze`, the extra-configuration-field extraction
(`BaseSkill._get_extra_fields`) and the instruction improver
(`LLMSkill.improve`).

Tabular data (`InternalDataFrame`, a pandas `DataFrame`) is modelled as a list
of named columns of values; the inference backend (`Runtime.process_batch` /
`process_record`) is an opaque function parameter, per the spec's external
interface contract.  Python exceptions are modelled with `Except` /
explicit error components.
-/

set_option maxHeartbeats 1000000

namespace Adala

/-- The opening curly brace character `\x7b`. -/
def lb : Char := '\x7b'

/-- The closing curly brace character `\x7d`. -/
def rb : Char := '\x7d'

/-- `startsWith pat l` : `pat` is an initial segment of `l`. -/
def startsWith : List Char → List Char → Bool
  | [], _ => true
  | _ :: _, [] => false
  | p :: ps, c :: cs => p == c && startsWith ps cs

/-- Python's substring test `pat in l` on character lists. -/
def isSubstring (pat : List Char) : List Char → Bool
  | [] => startsWith pat []
  | l@(_ :: rest) => startsWith pat l || isSubstring pat rest

/-- The raw-input placeholder marker `\x7b\x7b\x7b\x7b\x7binput\x7d\x7d\x7d\x7d\x7d`
(five curly braces on each side), the literal checked by
`BaseSkill.validate_inputs` with Python's `in`. -/
def markerL : List Char :=
  [lb, lb, lb, lb, lb, 'i', 'n', 'p', 'u', 't', rb, rb, rb, rb, rb]

/-- The characters of the only keyword argument passed to `str.format`,
namely `input`. -/
def inputKey : List Char := ['i', 'n', 'p', 'u', 't']

/-- Errors raised by Python's `str.format`: unmatched or single braces
(`ValueError`) and a replacement field other than `input` (`KeyError` /
`IndexError`). -/
inductive FmtErr where
  | unmatchedOpen
  | singleClose
  | unterminatedField
  | keyError
deriving DecidableEq

/-- Scanner state of Python's `str.format`: plain literal text, right after an
opening brace, right after a closing brace, or inside a replacement field
whose name read so far (reversed) is `acc`. -/
inductive FmtMode where
  | lit
  | afterOpen
  | afterClose
  | field (acc : List Char)

/-- One-character-at-a-time scanner of Python's `str.format(input=f)`,
specialised to the fragment the repository uses: `\x7b\x7b` and `\x7d\x7d` are
escapes for single braces, `\x7binput\x7d` is replaced by `f`, and any other
replacement field is an error, as are unmatched braces (conversion and
format-spec suffixes such as `!r` or `:>10`, which no template of this
repository uses, are not modelled). -/
def pyFmtAux (f : List Char) : List Char → FmtMode → Except FmtErr (List Char)
  | [], .lit => .ok []
  | [], .afterOpen => .error .unmatchedOpen
  | [], .afterClose => .error .singleClose
  | [], .field _ => .error .unterminatedField
  | c :: rest, .lit =>
    if c = lb then pyFmtAux f rest .afterOpen
    else if c = rb then pyFmtAux f rest .afterClose
    else (pyFmtAux f rest .lit).map (fun t => c :: t)
  | c :: rest, .afterOpen =>
    if c = lb then (pyFmtAux f rest .lit).map (fun t => lb :: t)
    else if c = rb then .error .keyError
    else pyFmtAux f rest (.field [c])
  | c :: rest, .afterClose =>
    if c = rb then (pyFmtAux f rest .lit).map (fun t => rb :: t)
    else .error .singleClose
  | c :: rest, .field acc =>
    if c = rb then
      if acc.reverse = inputKey then (pyFmtAux f rest .lit).map (fun t => f ++ t)
      else .error .keyError
    else pyFmtAux f rest (.field (c :: acc))

/-- Python's `t.format(input=f)` on character lists. -/
def pyFormat (f : List Char) (t : List Char) : Except FmtErr (List Char) :=
  pyFmtAux f t .lit

/-- Decidable equality of `Except` results, used to evaluate the embedding on
concrete inputs. -/
instance {ε α : Type} [DecidableEq ε] [DecidableEq α] : DecidableEq (Except ε α) := fun a b =>
  match a, b with
  | .error e, .error e' =>
    if h : e = e' then isTrue (by rw [h]) else isFalse (by intro hh; cases hh; exact h rfl)
  | .ok x, .ok y =>
    if h : x = y then isTrue (by rw [h]) else isFalse (by intro hh; cases hh; exact h rfl)
  | .error _, .ok _ => isFalse (by intro h; cases h)
  | .ok _, .error _ => isFalse (by intro h; cases h)

/-- A field value of a skill descriptor or of a data cell: plain strings,
optional strings and string lists are enough for every configuration this
development evaluates. -/
inductive Value where
  | str : String → Value
  | optStr : Option String → Value
  | strList : List String → Value
deriving DecidableEq

/-- The Skill Descriptor (`BaseSkill` pydantic model): the seven declared
system fields, plus `extra`, the open list of skill-specific configuration
fields a concrete subclass declares in addition (pydantic keeps field names
unique, so `extra` names never collide with the system names). -/
structure Skill where
  name : String
  instructions : String
  description : String
  input_template : String
  output_template : String
  input_data_field : Option String
  prediction_field : String
  extra : List (String × Value)
deriving DecidableEq

/-- Python's `'\x7b\x7b\x7b\x7b\x7binput\x7d\x7d\x7d\x7d\x7d' in t`, the test on line 90 of
`adala/skills/base.py`. -/
def containsMarker (t : String) : Bool :=
  isSubstring markerL t.toList

/-- The errors skill construction can raise: the explicit
`ValueError('input_data_field is not provided ...')` of `validate_inputs`
(the spec's `ConfigurationError`), and an error escaping from `str.format`. -/
inductive ConstructError where
  | configurationError (msg : String)
  | formatError (e : FmtErr)
deriving DecidableEq

/-- `BaseSkill.validate_inputs` (lines 82-100): the pydantic `model_validator`
run when the descriptor is constructed.  If the template contains the raw-input
placeholder marker, it requires `input_data_field` and rewrites the whole
template with `str.format(input=input_data_field)`; otherwise the descriptor
is returned unchanged. -/
def validate_inputs (s : Skill) : Except ConstructError Skill :=
  if containsMarker s.input_template then
    match s.input_data_field with
    | none =>
      .error (.configurationError
        ("input_data_field is not provided for skill " ++ s.name))
    | some f =>
      match pyFormat f.toList s.input_template.toList with
      | .error e => .error (.formatError e)
      | .ok t => .ok { s with input_template := String.mk t }
  else .ok s

/-- Constructing a skill descriptor: pydantic builds the instance from the
given fields and immediately runs the `mode='after'` validator, before the
instance can be used in any `apply`/`analyze`/`improve` call. -/
def constructSkill (s : Skill) : Except ConstructError Skill :=
  validate_inputs s

/-- The claim's reading of template resolution, stated from the spec's words:
replace each occurrence of the raw-input placeholder marker by the field
reference `\x7b\x7bf\x7d\x7d` and leave every other character of the template
unchanged.  This is the definition the code is compared against; it is not
the code's behaviour. -/
def replaceMarkerOnly (f : List Char) : List Char → List Char
  | [] => []
  | c :: rest =>
    if startsWith markerL (c :: rest) then
      lb :: lb :: (f ++ rb :: rb :: replaceMarkerOnly f (rest.drop 14))
    else c :: replaceMarkerOnly f rest
termination_by l => l.length
decreasing_by
  · simp only [List.length_drop, List.length_cons]
    omega
  · simp

/-- A character list containing no curly brace of either kind. -/
def bracefree (l : List Char) : Bool :=
  l.all (fun c => !(c == lb) && !(c == rb))

/-- An `InternalDataFrame` (pandas `DataFrame`): an ordered list of named
columns, each holding the column's values in row order; rows are positional. -/
structure Frame where
  cols : List (String × List Value)
deriving DecidableEq

/-- The column names, in order (`df.columns`). -/
def Frame.names (f : Frame) : List String := f.cols.map Prod.fst

/-- The values of column `c` (`df[c]`), if present; with duplicate names the
first occurrence wins. -/
def Frame.lookup (f : Frame) (c : String) : Option (List Value) :=
  (f.cols.find? (fun p => p.1 == c)).map Prod.snd

/-- pandas `df.rename(columns={old: new})`: every column named `old` is
renamed to `new`; values and order are untouched. -/
def Frame.renameCol (f : Frame) (old new : String) : Frame :=
  ⟨f.cols.map (fun p => (if p.1 = old then new else p.1, p.2))⟩

/-- pandas column assignment `df[c] = vs`: overwrite the column in place if
the name exists, otherwise append it on the right. -/
def Frame.setCol (f : Frame) (c : String) (vs : List Value) : Frame :=
  if c ∈ f.names then ⟨f.cols.map (fun p => if p.1 = c then (c, vs) else p)⟩
  else ⟨f.cols ++ [(c, vs)]⟩

/-- pandas `df[cols] = other[cols]` for the full column list of `other`,
column by column, left to right. -/
def Frame.assignList (f : Frame) : List (String × List Value) → Frame
  | [] => f
  | p :: rest => (f.setCol p.1 p.2).assignList rest

/-- `output[predictions.columns] = predictions[predictions.columns]`. -/
def Frame.assign (out preds : Frame) : Frame :=
  out.assignList preds.cols

/-- `BaseSkill.__call__` (lines 102-129), the Batch Executor.  The inference
backend `process_batch` is an opaque function per the spec's external
interface contract.  Step by step: call the backend on the input batch;
rename the `prediction_field` column of the returned frame to the skill's
name (in place on the backend's frame); copy the input batch; assign the
prediction columns into the copy; return it.  The first component of the
result is the state of the caller's `input` frame after the call — the
assignment targets the copy, so it is the unchanged input — and the second
component is the returned prediction batch. -/
def Skill.call (s : Skill) (process_batch : Frame → Frame) (input : Frame) :
    Frame × Frame :=
  let preds := (process_batch input).renameCol s.prediction_field s.name
  let output := input
  (input, output.assign preds)

/-- Modelled from the spec: the dataset contract of §6 (`adala.datasets` is
not part of the sources).  A dataset exposes its declared columns
(`dataset.df.columns`) and a finite sequence of batches
(`dataset.batch_iterator()`). -/
structure Dataset where
  cols : List String
  batches : List Frame

/-- Row-wise concatenation of two frames sharing a schema, keeping the first
frame's column order. -/
def concatRows (a b : Frame) : Frame :=
  ⟨a.cols.map (fun p => (p.1, p.2 ++ ((b.lookup p.1).getD [])))⟩

/-- Modelled from the spec: `InternalDataFrameConcat` (from
`adala.utils.internal_data`, not part of the sources) concatenates the
partial results row-wise, preserving batch order. -/
def concatFrames : List Frame → Frame
  | [] => ⟨[]⟩
  | f :: fs => fs.foldl concatRows f

/-- `InternalDataFrame(columns=names)`: a frame with the given columns and
zero rows. -/
def emptyFrame (names : List String) : Frame :=
  ⟨names.map (fun n => (n, []))⟩

/-- `LLMSkill.apply` (lines 236-263), the Skill Driver: run the Batch
Executor over every batch of the dataset, collect the outputs in order, and
concatenate them; if the iterator yielded no batch, return the empty frame
with the dataset's columns plus the skill's name column. -/
def Skill.apply (s : Skill) (process_batch : Frame → Frame) (ds : Dataset) :
    Frame :=
  let predictions := ds.batches.map (fun b => (s.call process_batch b).2)
  if predictions.isEmpty then emptyFrame (ds.cols ++ [s.name])
  else concatFrames predictions

/-- `MAX_ERRORS` (line 289). -/
def MAX_ERRORS : Nat := 3

/-- pandas `errors.sample(n=k)` draws `k` rows uniformly without replacement.
The random source is injected as `perm`, a permutation of the row indices
produced by the (unseeded) generator; the sample is the first `k` entries of
that permutation, clamped at row count. -/
def sampleRows (perm : List Nat) (rows : List α) (n : Nat) : List α :=
  (perm.take (min n rows.length)).filterMap (fun i => rows[i]?)

/-- The Error Sampler step of `LLMSkill.analyze` (lines 289-290):
`errors.sample(n=min(MAX_ERRORS, errors.shape[0]))`. -/
def Skill.analyzeSampleErrors (perm : List Nat) (rows : List α) : List α :=
  sampleRows perm rows (min MAX_ERRORS rows.length)

/-- The reserved system field names of `BaseSkill._get_extra_fields`
(lines 140-142). -/
def systemFields : List String :=
  ["name", "description", "input_template", "output_template", "instructions",
   "input_data_field", "prediction_field"]

/-- pydantic `self.model_dump()`: every declared field of the descriptor with
its value, the seven system fields first, then the subclass's own fields. -/
def modelDump (s : Skill) : List (String × Value) :=
  [("name", .str s.name), ("instructions", .str s.instructions),
   ("description", .str s.description), ("input_template", .str s.input_template),
   ("output_template", .str s.output_template),
   ("input_data_field", .optStr s.input_data_field),
   ("prediction_field", .str s.prediction_field)] ++ s.extra

/-- `BaseSkill._get_extra_fields` (lines 131-144):
`self.model_dump(exclude=system_fields)`. -/
def Skill.get_extra_fields (s : Skill) : List (String × Value) :=
  (modelDump s).filter (fun kv => !(systemFields.contains kv.1))

/-- A backend failure raised inside `Runtime.process_record`. -/
inductive BackendErr where
  | backendFailure (msg : String)
deriving DecidableEq

/-- A record returned by `Runtime.process_record`: output names to values. -/
abbrev Record := List (String × String)

/-- Python `record[k]` lookup. -/
def lookupRecord (r : Record) (k : String) : Option String :=
  (r.find? (fun p => p.1 == k)).map Prod.snd

/-- The ways `LLMSkill.improve` can abort: the backend call raised, or its
result record lacks the `new_instruction` key (Python `KeyError`). -/
inductive ImproveErr where
  | backendError (e : BackendErr)
  | missingOutput
deriving DecidableEq

/-- `LLMSkill.improve` (lines 349-386), the Instruction Improver.  The
backend `process_record` is opaque; the model passes it the record actually
built by the code (`{'error_analysis': error_analysis}`).  The result pair is
the state of the descriptor after the call together with the exception, if
any, that aborted it: `self.instructions` is assigned only from a successful
backend response, so on either failure the descriptor is returned exactly as
it was. -/
def Skill.improve (s : Skill) (error_analysis : String)
    (process_record : Record → Except BackendErr Record) :
    Skill × Option ImproveErr :=
  match process_record [("error_analysis", error_analysis)] with
  | .error e => (s, some (.backendError e))
  | .ok r =>
    match lookupRecord r "new_instruction" with
    | none => (s, some .missingOutput)
    | some ni => ({ s with instructions := ni }, none)

/-! ## Helper lemmas -/

theorem exceptMap_map {ε α β γ : Type} (x : Except ε α) (g : α → β) (h : β → γ) :
    (x.map g).map h = x.map (fun a => h (g a)) := by
  cases x <;> rfl

theorem bracefree_head {c : Char} {l : List Char} (h : bracefree (c :: l) = true) :
    c ≠ lb ∧ c ≠ rb ∧ bracefree l = true := by
  simp only [bracefree, List.all_cons, Bool.and_eq_true, Bool.not_eq_true',
    beq_eq_false_iff_ne] at h
  exact ⟨h.1.1, h.1.2, h.2⟩

theorem pyFmtAux_lit_cons {f : List Char} {c : Char} {l : List Char}
    (h1 : c ≠ lb) (h2 : c ≠ rb) :
    pyFmtAux f (c :: l) .lit = (pyFmtAux f l .lit).map (fun t => c :: t) := by
  simp [pyFmtAux, h1, h2]

theorem pyFmtAux_bracefree_append {f a : List Char} (l : List Char)
    (ha : bracefree a = true) :
    pyFmtAux f (a ++ l) .lit = (pyFmtAux f l .lit).map (fun t => a ++ t) := by
  induction a with
  | nil => cases hx : pyFmtAux f l .lit <;> simp [hx, Except.map]
  | cons c a ih =>
    obtain ⟨h1, h2, h3⟩ := bracefree_head ha
    rw [List.cons_append, pyFmtAux_lit_cons h1 h2, ih h3, exceptMap_map]
    cases hx : pyFmtAux f l .lit <;> simp [hx, Except.map]

theorem pyFmtAux_bracefree_nil {f b : List Char} (hb : bracefree b = true) :
    pyFmtAux f b .lit = .ok b := by
  have h := pyFmtAux_bracefree_append (f := f) [] hb
  simpa [pyFmtAux, Except.map] using h

theorem pyFmtAux_marker (f b : List Char) :
    pyFmtAux f (markerL ++ b) .lit =
      (pyFmtAux f b .lit).map (fun t => lb :: lb :: (f ++ rb :: rb :: t)) := by
  cases hx : pyFmtAux f b .lit <;>
    simp +decide [markerL, pyFmtAux, inputKey, hx, Except.map]

theorem pyFormat_resolves {a f b : List Char}
    (ha : bracefree a = true) (hb : bracefree b = true) :
    pyFormat f (a ++ (markerL ++ b)) = .ok (a ++ (lb :: lb :: (f ++ rb :: rb :: b))) := by
  rw [pyFormat, pyFmtAux_bracefree_append _ ha, pyFmtAux_marker,
    pyFmtAux_bracefree_nil hb]
  rfl

theorem startsWith_append_left {p q l : List Char}
    (h : startsWith (p ++ q) l = true) : startsWith p l = true := by
  induction p generalizing l with
  | nil => simp [startsWith]
  | cons c p ih =>
    cases l with
    | nil => simp [startsWith] at h
    | cons d l' =>
      simp only [List.cons_append, startsWith, Bool.and_eq_true] at h ⊢
      exact ⟨h.1, ih h.2⟩

theorem isSubstring_of_startsWith {pat l : List Char}
    (h : startsWith pat l = true) : isSubstring pat l = true := by
  cases l with
  | nil => simpa [isSubstring] using h
  | cons c l' => simp [isSubstring, h]

theorem isSubstring_cons_of {pat l : List Char} (c : Char)
    (h : isSubstring pat l = true) : isSubstring pat (c :: l) = true := by
  simp [isSubstring, h]

theorem isSubstring_append_left {p q l : List Char}
    (h : isSubstring (p ++ q) l = true) : isSubstring p l = true := by
  induction l with
  | nil =>
    simp only [isSubstring] at h ⊢
    exact startsWith_append_left h
  | cons c l ih =>
    simp only [isSubstring, Bool.or_eq_true] at h ⊢
    rcases h with h | h
    · exact Or.inl (startsWith_append_left h)
    · exact Or.inr (ih h)

theorem startsWith_self_append (p l : List Char) : startsWith p (p ++ l) = true := by
  induction p with
  | nil => simp [startsWith]
  | cons c p ih => simp [startsWith, ih]

theorem isSubstring_self_append (pat a b : List Char) :
    isSubstring pat (a ++ (pat ++ b)) = true := by
  induction a with
  | nil => exact isSubstring_of_startsWith (startsWith_self_append pat b)
  | cons c a ih => exact isSubstring_cons_of c ih

theorem isSubstring_lll_cons {c : Char} {l : List Char} (hc : c ≠ lb) :
    isSubstring [lb, lb, lb] (c :: l) = isSubstring [lb, lb, lb] l := by
  have h1 : (lb == c) = false := by
    simp only [beq_eq_false_iff_ne]
    exact fun hh => hc hh.symm
  simp [isSubstring, startsWith, h1]

theorem isSubstring_lll_bracefree_append {a : List Char} (l : List Char)
    (ha : bracefree a = true) :
    isSubstring [lb, lb, lb] (a ++ l) = isSubstring [lb, lb, lb] l := by
  induction a with
  | nil => simp
  | cons c a ih =>
    obtain ⟨h1, _, h3⟩ := bracefree_head ha
    rw [List.cons_append, isSubstring_lll_cons h1, ih h3]

theorem isSubstring_lll_bracefree_nil {b : List Char} (hb : bracefree b = true) :
    isSubstring [lb, lb, lb] b = false := by
  induction b with
  | nil => rfl
  | cons c b ih =>
    obtain ⟨h1, _, h3⟩ := bracefree_head hb
    rw [isSubstring_lll_cons h1, ih h3]

theorem startsWith_lb_bracefree {f : List Char} (p l : List Char)
    (hf : bracefree f = true) :
    startsWith (lb :: p) (f ++ rb :: l) = false := by
  cases f with
  | nil =>
    have : (lb == rb) = false := by decide
    simp [startsWith, this]
  | cons c f' =>
    obtain ⟨h1, _, _⟩ := bracefree_head hf
    have : (lb == c) = false := by
      simp only [beq_eq_false_iff_ne]
      exact fun hh => h1 hh.symm
    simp [startsWith, this]

theorem no_marker_in_resolved {a f b : List Char}
    (ha : bracefree a = true) (hf : bracefree f = true) (hb : bracefree b = true) :
    isSubstring markerL (a ++ (lb :: lb :: (f ++ rb :: rb :: b))) = false := by
  have h0 : startsWith [lb] (f ++ rb :: (rb :: b)) = false :=
    startsWith_lb_bracefree [] (rb :: b) hf
  have h00 : startsWith [lb, lb] (f ++ rb :: (rb :: b)) = false :=
    startsWith_lb_bracefree [lb] (rb :: b) hf
  have h3 : isSubstring [lb, lb, lb] (f ++ rb :: rb :: b) = false := by
    rw [isSubstring_lll_bracefree_append _ hf,
      isSubstring_lll_cons (by decide : rb ≠ lb),
      isSubstring_lll_cons (by decide : rb ≠ lb)]
    exact isSubstring_lll_bracefree_nil hb
  have hlll : isSubstring [lb, lb, lb] (a ++ (lb :: lb :: (f ++ rb :: rb :: b))) = false := by
    rw [isSubstring_lll_bracefree_append _ ha]
    simp [isSubstring, startsWith, h0, h00, h3]
  cases hms : isSubstring markerL (a ++ (lb :: lb :: (f ++ rb :: rb :: b))) with
  | false => rfl
  | true =>
    have hmk : markerL = [lb, lb, lb] ++ [lb, lb, 'i', 'n', 'p', 'u', 't', rb, rb, rb, rb, rb] := by
      decide
    rw [hmk] at hms
    have h4 := isSubstring_append_left hms
    rw [h4] at hlll
    cases hlll

/-! ## Claim C1 -/

/-- Claim C1: for every skill descriptor whose `input_template` contains the
raw-input placeholder marker and whose `input_data_field` is `None`,
construction fails with the configuration error raised by `validate_inputs`
naming the missing field — at construction time, i.e. inside `constructSkill`
itself, before any `apply`/`analyze`/`improve` call could be made on the
descriptor. -/
theorem c1_missing_input_data_field_fails (s : Skill)
    (h1 : containsMarker s.input_template = true)
    (h2 : s.input_data_field = none) :
    constructSkill s =
      .error (.configurationError
        ("input_data_field is not provided for skill " ++ s.name)) := by
  simp [constructSkill, validate_inputs, h1, h2]

/-- Witness for C1: the default input template does contain the marker, and
construction with `input_data_field = None` fails with the configuration
error. -/
theorem c1_witness :
    containsMarker "Input: \x7b\x7b\x7b\x7b\x7binput\x7d\x7d\x7d\x7d\x7d" = true ∧
    constructSkill
        ⟨"sentiment", "", "", "Input: \x7b\x7b\x7b\x7b\x7binput\x7d\x7d\x7d\x7d\x7d",
         "o", none, "predictions", []⟩ =
      .error (.configurationError
        ("input_data_field is not provided for skill " ++ "sentiment")) :=
  ⟨by decide, c1_missing_input_data_field_fails _ (by decide) rfl⟩

/-! ## Claim C3 -/

/-- Counterexample to claim C3 as stated: for the template
`\x7b\x7b\x7b\x7bdate\x7d\x7d\x7d\x7d \x7b\x7b\x7b\x7b\x7binput\x7d\x7d\x7d\x7d\x7d`
with `input_data_field = "text"`, the code stores
`\x7b\x7bdate\x7d\x7d \x7b\x7btext\x7d\x7d` — the doubled braces around `date`
were collapsed too — whereas substituting only the marker (the claim's
reading, `replaceMarkerOnly`) would leave the date part unchanged. -/
theorem c3_counterexample :
    (constructSkill
        ⟨"s", "", "",
         "\x7b\x7b\x7b\x7bdate\x7d\x7d\x7d\x7d \x7b\x7b\x7b\x7b\x7binput\x7d\x7d\x7d\x7d\x7d",
         "o", some "text", "predictions", []⟩).map (fun s => s.input_template.toList) =
      .ok "\x7b\x7bdate\x7d\x7d \x7b\x7btext\x7d\x7d".toList ∧
    replaceMarkerOnly "text".toList
        "\x7b\x7b\x7b\x7bdate\x7d\x7d\x7d\x7d \x7b\x7b\x7b\x7b\x7binput\x7d\x7d\x7d\x7d\x7d".toList ≠
      "\x7b\x7bdate\x7d\x7d \x7b\x7btext\x7d\x7d".toList := by
  constructor
  · decide
  · simp +decide [replaceMarkerOnly]

/-- Claim C3 (amended): template resolution at construction applies Python
`str.format` to the whole template — when the marker is present and
`input_data_field` is set, the stored template is the format of the entire
template (the marker becomes the doubled-brace field reference, and every
other doubled brace pair collapses as well); when the marker is absent the
stored `input_template` is exactly the template as given, unchanged. -/
theorem c3_template_resolution (s : Skill) :
    (containsMarker s.input_template = false → constructSkill s = .ok s) ∧
    (∀ (f : String) (t : List Char), s.input_data_field = some f →
      containsMarker s.input_template = true →
      pyFormat f.toList s.input_template.toList = .ok t →
      constructSkill s = .ok { s with input_template := String.mk t }) := by
  constructor
  · intro h
    simp [constructSkill, validate_inputs, h]
  · intro f t hf hm hfmt
    have hfmt' : pyFormat f.data s.input_template.data = Except.ok t := hfmt
    simp [constructSkill, validate_inputs, hm, hf, hfmt, hfmt']

/-- Witness for C3 (amended): the default template with field `text` resolves
to `Input: \x7b\x7btext\x7d\x7d`. -/
theorem c3_witness :
    constructSkill
        ⟨"s", "", "", "Input: \x7b\x7b\x7b\x7b\x7binput\x7d\x7d\x7d\x7d\x7d", "o",
         some "text", "predictions", []⟩ =
      .ok ⟨"s", "", "", String.mk "Input: \x7b\x7btext\x7d\x7d".toList, "o",
           some "text", "predictions", []⟩ :=
  (c3_template_resolution _).2 "text" "Input: \x7b\x7btext\x7d\x7d".toList rfl
    (by decide) (by decide)

/-! ## Claim C10 -/

/-- Claim C10: when the marker is present and `input_data_field` is set,
resolution is Python `str.format` over the entire template — both on success
and on failure the construction result is exactly the format result — and
concretely the other doubled braces collapse
(`\x7b\x7b\x7b\x7bdate\x7d\x7d\x7d\x7d` becomes `\x7b\x7bdate\x7d\x7d`),
while a single-brace placeholder other than `\x7binput\x7d` makes
construction fail with a format error, not with the configuration error. -/
theorem c10_full_format_semantics :
    (∀ (s : Skill) (f : String), s.input_data_field = some f →
        containsMarker s.input_template = true →
        (∀ t, pyFormat f.toList s.input_template.toList = .ok t →
            constructSkill s = .ok { s with input_template := String.mk t }) ∧
          ∀ e, pyFormat f.toList s.input_template.toList = .error e →
            constructSkill s = .error (.formatError e)) ∧
    pyFormat "text".toList
        "\x7b\x7b\x7b\x7bdate\x7d\x7d\x7d\x7d \x7b\x7b\x7b\x7b\x7binput\x7d\x7d\x7d\x7d\x7d".toList =
      .ok "\x7b\x7bdate\x7d\x7d \x7b\x7btext\x7d\x7d".toList ∧
    constructSkill
        ⟨"s", "", "",
         "\x7b\x7b\x7b\x7b\x7binput\x7d\x7d\x7d\x7d\x7d and \x7bother\x7d", "o",
         some "text", "predictions", []⟩ =
      .error (.formatError .keyError) := by
  refine ⟨?_, by decide, by decide⟩
  intro s f hf hm
  constructor
  · intro t hfmt
    have hfmt' : pyFormat f.data s.input_template.data = Except.ok t := hfmt
    simp [constructSkill, validate_inputs, hm, hf, hfmt, hfmt']
  · intro e hfmt
    have hfmt' : pyFormat f.data s.input_template.data = Except.error e := hfmt
    simp [constructSkill, validate_inputs, hm, hf, hfmt, hfmt']

/-- Witness for C10: a template holding the marker and the single-brace
placeholder `\x7bdate\x7d` fails construction with the format error. -/
theorem c10_witness :
    constructSkill
        ⟨"s2", "", "", "\x7b\x7b\x7b\x7b\x7binput\x7d\x7d\x7d\x7d\x7d \x7bdate\x7d",
         "o", some "text", "predictions", []⟩ =
      .error (.formatError .keyError) :=
  (c10_full_format_semantics.1 _ "text" rfl (by decide)).2 .keyError (by decide)

/-! ## Claim C9 -/

/-- Counterexample to claim C9 as stated: the template of ten consecutive
opening and closing braces around `input` contains the marker, constructs
successfully with `input_data_field = "text"`, and its stored resolved
template STILL contains the marker (the format collapses the ten braces to
five on each side). -/
theorem c9_counterexample :
    containsMarker
      "\x7b\x7b\x7b\x7b\x7b\x7b\x7b\x7b\x7b\x7binput\x7d\x7d\x7d\x7d\x7d\x7d\x7d\x7d\x7d\x7d" = true ∧
    (constructSkill
        ⟨"s", "", "",
         "\x7b\x7b\x7b\x7b\x7b\x7b\x7b\x7b\x7b\x7binput\x7d\x7d\x7d\x7d\x7d\x7d\x7d\x7d\x7d\x7d",
         "o", some "text", "predictions", []⟩).map
        (fun s => containsMarker s.input_template) = .ok true := by
  constructor <;> decide

/-- Claim C9 (amended): after successful construction the stored
`input_template` is marker-free provided the original template's braces occur
only as the marker itself — precisely, when the marker was absent the
template is stored unchanged (hence still marker-free), and when the original
template is `a ++ marker ++ b` with `a`, `b` and the field name all free of
braces, the resolved template contains no marker.  (Without that proviso the
invariant fails, see the ten-brace counterexample.) -/
theorem c9_marker_free_amended :
    (∀ s s' : Skill, containsMarker s.input_template = false →
        constructSkill s = .ok s' → containsMarker s'.input_template = false) ∧
    (∀ (s s' : Skill) (a b : List Char) (f : String),
        s.input_template.toList = a ++ (markerL ++ b) →
        bracefree a = true → bracefree b = true → bracefree f.toList = true →
        s.input_data_field = some f →
        constructSkill s = .ok s' → containsMarker s'.input_template = false) := by
  constructor
  · intro s s' hm hc
    simp only [constructSkill, validate_inputs, hm, Bool.false_eq_true,
      if_false, Except.ok.injEq] at hc
    rw [← hc]
    exact hm
  · intro s s' a b f htl ha hb hf hfield hc
    have hm : containsMarker s.input_template = true := by
      unfold containsMarker
      rw [htl]
      exact isSubstring_self_append markerL a b
    have hfmt : pyFormat f.toList s.input_template.toList =
        .ok (a ++ (lb :: lb :: (f.toList ++ rb :: rb :: b))) := by
      rw [htl]
      exact pyFormat_resolves ha hb
    simp only [constructSkill, validate_inputs, hm, if_true, hfield, hfmt,
      Except.ok.injEq] at hc
    rw [← hc]
    show isSubstring markerL (a ++ (lb :: lb :: (f.toList ++ rb :: rb :: b))) = false
    exact no_marker_in_resolved ha hf hb

/-- Witness for C9 (amended): the default-shaped template
`Input: <marker>!` with field `text` constructs to
`Input: \x7b\x7btext\x7d\x7d!`, which is marker-free. -/
theorem c9_witness :
    constructSkill
        ⟨"s", "", "", "Input: \x7b\x7b\x7b\x7b\x7binput\x7d\x7d\x7d\x7d\x7d!", "o",
         some "text", "predictions", []⟩ =
      .ok ⟨"s", "", "", String.mk "Input: \x7b\x7btext\x7d\x7d!".toList, "o",
           some "text", "predictions", []⟩ ∧
    containsMarker (String.mk "Input: \x7b\x7btext\x7d\x7d!".toList) = false := by
  refine ⟨by decide, ?_⟩
  exact c9_marker_free_amended.2
    ⟨"s", "", "", "Input: \x7b\x7b\x7b\x7b\x7binput\x7d\x7d\x7d\x7d\x7d!", "o",
     some "text", "predictions", []⟩
    ⟨"s", "", "", String.mk "Input: \x7b\x7btext\x7d\x7d!".toList, "o",
     some "text", "predictions", []⟩
    "Input: ".toList "!".toList "text"
    (by decide) (by decide) (by decide) (by decide) rfl (by decide)

/-! ## Frame lemmas -/

theorem find?_overwrite_self (l : List (String × List Value)) (c : String)
    (vs : List Value) (h : c ∈ l.map Prod.fst) :
    (l.map (fun p => if p.1 = c then (c, vs) else p)).find? (fun p => p.1 == c) =
      some (c, vs) := by
  induction l with
  | nil => simp at h
  | cons p l ih =>
    rw [List.map_cons] at h
    by_cases hp : p.1 = c
    · rw [List.map_cons, if_pos hp]
      exact List.find?_cons_of_pos _ (by simp)
    · have h' : c ∈ l.map Prod.fst := by
        rcases List.mem_cons.mp h with h0 | h0
        · exact absurd h0.symm hp
        · exact h0
      rw [List.map_cons, if_neg hp, List.find?_cons_of_neg _ (by simp [hp]), ih h']

theorem find?_overwrite_other (l : List (String × List Value)) (c : String)
    (vs : List Value) (d : String) (hd : d ≠ c) :
    (l.map (fun p => if p.1 = c then (c, vs) else p)).find? (fun p => p.1 == d) =
      l.find? (fun p => p.1 == d) := by
  induction l with
  | nil => rfl
  | cons p l ih =>
    by_cases hp : p.1 = c
    · rw [List.map_cons, if_pos hp,
        List.find?_cons_of_neg _ (by simp only [beq_iff_eq]; exact fun hh => hd hh.symm),
        List.find?_cons_of_neg _
          (by simp only [beq_iff_eq, hp]; exact fun hh => hd hh.symm), ih]
    · rw [List.map_cons, if_neg hp]
      by_cases hq : p.1 = d
      · rw [List.find?_cons_of_pos _ (by simp [hq]),
          List.find?_cons_of_pos _ (by simp [hq])]
      · rw [List.find?_cons_of_neg _ (by simp [hq]),
          List.find?_cons_of_neg _ (by simp [hq]), ih]

theorem find?_append_single_self (l : List (String × List Value)) (c : String)
    (vs : List Value) (h : c ∉ l.map Prod.fst) :
    (l ++ [(c, vs)]).find? (fun p => p.1 == c) = some (c, vs) := by
  rw [List.find?_append]
  have h0 : l.find? (fun p => p.1 == c) = none := by
    rw [List.find?_eq_none]
    intro x hx
    simp only [beq_iff_eq]
    intro hc
    exact h (by rw [← hc]; exact List.mem_map_of_mem Prod.fst hx)
  rw [h0]
  simp [List.find?]

theorem names_setCol_mem (f : Frame) {c : String} (vs : List Value)
    (h : c ∈ f.names) : (f.setCol c vs).names = f.names := by
  rw [Frame.setCol, if_pos h]
  show (f.cols.map _).map Prod.fst = f.cols.map Prod.fst
  rw [List.map_map]
  refine List.map_congr_left fun p _ => ?_
  by_cases hp : p.1 = c
  · simp [hp]
  · simp [hp]

theorem names_setCol_not_mem (f : Frame) {c : String} (vs : List Value)
    (h : c ∉ f.names) : (f.setCol c vs).names = f.names ++ [c] := by
  rw [Frame.setCol, if_neg h]
  show (f.cols ++ [(c, vs)]).map Prod.fst = f.cols.map Prod.fst ++ [c]
  simp

theorem lookup_setCol_self (f : Frame) (c : String) (vs : List Value) :
    (f.setCol c vs).lookup c = some vs := by
  rw [Frame.setCol]
  by_cases h : c ∈ f.names
  · rw [if_pos h]
    show ((f.cols.map _).find? _).map Prod.snd = some vs
    rw [find?_overwrite_self f.cols c vs h]
    rfl
  · rw [if_neg h]
    show ((f.cols ++ [(c, vs)]).find? _).map Prod.snd = some vs
    rw [find?_append_single_self f.cols c vs h]
    rfl

theorem lookup_setCol_other (f : Frame) {c d : String} (vs : List Value)
    (hd : d ≠ c) : (f.setCol c vs).lookup d = f.lookup d := by
  rw [Frame.setCol]
  by_cases h : c ∈ f.names
  · rw [if_pos h]
    show ((f.cols.map _).find? _).map Prod.snd = _
    rw [find?_overwrite_other f.cols c vs d hd]
    rfl
  · rw [if_neg h]
    show ((f.cols ++ [(c, vs)]).find? _).map Prod.snd = _
    rw [List.find?_append]
    have hcd : ((c, vs).1 == d) = false := by
      simp only [beq_eq_false_iff_ne]
      exact fun hh => hd hh.symm
    have h0 : [(c, vs)].find? (fun p => p.1 == d) = none := by
      simp [List.find?, hcd]
    rw [h0, Option.or_none]
    rfl

theorem lookup_assignList_not_mem (f : Frame) (l : List (String × List Value))
    (c : String) (h : c ∉ l.map Prod.fst) :
    (f.assignList l).lookup c = f.lookup c := by
  induction l generalizing f with
  | nil => rfl
  | cons p l ih =>
    have h1 : c ≠ p.1 := fun hh => h (by rw [List.map_cons, hh]; exact List.mem_cons_self _ _)
    have h2 : c ∉ l.map Prod.fst := fun hh => h (by rw [List.map_cons]; exact List.mem_cons_of_mem _ hh)
    rw [Frame.assignList, ih _ h2, lookup_setCol_other _ _ h1]

theorem lookup_assignList_mem (f : Frame) (l : List (String × List Value))
    (c : String) (hnd : (l.map Prod.fst).Nodup) (h : c ∈ l.map Prod.fst) :
    (f.assignList l).lookup c = (l.find? (fun p => p.1 == c)).map Prod.snd := by
  induction l generalizing f with
  | nil => simp at h
  | cons p l ih =>
    rw [List.map_cons] at hnd h
    have hnd' := List.nodup_cons.mp hnd
    by_cases hp : p.1 = c
    · have hcl : c ∉ l.map Prod.fst := by rw [← hp]; exact hnd'.1
      rw [Frame.assignList, lookup_assignList_not_mem _ _ _ hcl,
        List.find?_cons_of_pos _ (by simp [hp])]
      rw [← hp, lookup_setCol_self]
      rfl
    · have h' : c ∈ l.map Prod.fst := by
        rcases List.mem_cons.mp h with h0 | h0
        · exact absurd h0.symm hp
        · exact h0
      rw [Frame.assignList, ih _ hnd'.2 h', List.find?_cons_of_neg _ (by simp [hp])]

theorem names_assignList (f : Frame) (l : List (String × List Value))
    (hnd : (l.map Prod.fst).Nodup) :
    (f.assignList l).names =
      f.names ++ (l.map Prod.fst).filter (fun c => decide (c ∉ f.names)) := by
  induction l generalizing f with
  | nil => simp [Frame.assignList]
  | cons p l ih =>
    rw [List.map_cons] at hnd
    have hnd' := List.nodup_cons.mp hnd
    rw [Frame.assignList, ih _ hnd'.2]
    by_cases hp : p.1 ∈ f.names
    · rw [names_setCol_mem _ _ hp]
      congr 1
      rw [List.map_cons, List.filter_cons, if_neg (by simp [hp])]
    · rw [names_setCol_not_mem _ _ hp, List.map_cons, List.filter_cons,
        if_pos (by simp [hp]), List.append_assoc]
      congr 1
      have hfilter : (l.map Prod.fst).filter (fun c => decide (c ∉ f.names ++ [p.1])) =
          (l.map Prod.fst).filter (fun c => decide (c ∉ f.names)) := by
        refine List.filter_congr fun x hx => ?_
        have hxp : x ≠ p.1 := fun hh => hnd'.1 (hh ▸ hx)
        simp [List.mem_append, hxp]
      rw [hfilter]
      rfl

/-! ## Claim C4 -/

/-- Claim C4: the Batch Executor (`BaseSkill.__call__`) does not mutate the
input batch (first component of `Skill.call` is the caller's frame,
untouched, because the assignment targets `input.copy()`), and the returned
prediction batch keeps every input column not overwritten by the backend's
renamed prediction columns with its original values (hence original row
order), takes the values of every prediction column from the renamed backend
result, and has exactly the input columns followed by the new prediction
columns. -/
theorem c4_call_frame_effect (s : Skill) (process_batch : Frame → Frame)
    (input : Frame)
    (hnd : ((process_batch input).renameCol s.prediction_field s.name).names.Nodup) :
    (s.call process_batch input).1 = input ∧
    (s.call process_batch input).2.names =
      input.names ++
        ((process_batch input).renameCol s.prediction_field s.name).names.filter
          (fun c => decide (c ∉ input.names)) ∧
    (∀ c, c ∉ ((process_batch input).renameCol s.prediction_field s.name).names →
      (s.call process_batch input).2.lookup c = input.lookup c) ∧
    (∀ c, c ∈ ((process_batch input).renameCol s.prediction_field s.name).names →
      (s.call process_batch input).2.lookup c =
        ((process_batch input).renameCol s.prediction_field s.name).lookup c) := by
  refine ⟨rfl, ?_, ?_, ?_⟩
  · exact names_assignList input _ hnd
  · intro c hc
    exact lookup_assignList_not_mem input _ c hc
  · intro c hc
    exact lookup_assignList_mem input _ c hnd hc

/-- Witness for C4: one input row `text = great!`, a backend returning one
`predictions` column, skill name `sentiment`: the input frame is unchanged,
its `text` column is preserved and the renamed prediction column is
appended. -/
theorem c4_witness :
    (Skill.call ⟨"sentiment", "", "", "i", "o", some "text", "predictions", []⟩
        (fun _ => ⟨[("predictions", [Value.str "positive"])]⟩)
        ⟨[("text", [Value.str "great!"])]⟩).1 = ⟨[("text", [Value.str "great!"])]⟩ ∧
    (Skill.call ⟨"sentiment", "", "", "i", "o", some "text", "predictions", []⟩
        (fun _ => ⟨[("predictions", [Value.str "positive"])]⟩)
        ⟨[("text", [Value.str "great!"])]⟩).2.lookup "text" =
      some [Value.str "great!"] ∧
    (Skill.call ⟨"sentiment", "", "", "i", "o", some "text", "predictions", []⟩
        (fun _ => ⟨[("predictions", [Value.str "positive"])]⟩)
        ⟨[("text", [Value.str "great!"])]⟩).2.names = ["text", "sentiment"] := by
  have h := c4_call_frame_effect
    ⟨"sentiment", "", "", "i", "o", some "text", "predictions", []⟩
    (fun _ => ⟨[("predictions", [Value.str "positive"])]⟩)
    ⟨[("text", [Value.str "great!"])]⟩ (by decide)
  refine ⟨h.1, ?_, ?_⟩
  · rw [h.2.2.1 "text" (by decide)]
    decide
  · rw [h.2.1]
    decide

/-! ## Claim C2 -/

/-- Claim C2: for every skill and every dataset whose batch iterator yields
zero batches, `apply` returns the empty frame whose column list is exactly
the dataset's declared columns followed by the skill's name, with zero rows
in every column. -/
theorem c2_empty_dataset_schema (s : Skill) (process_batch : Frame → Frame)
    (ds : Dataset) (h : ds.batches = []) :
    s.apply process_batch ds = emptyFrame (ds.cols ++ [s.name]) ∧
    (s.apply process_batch ds).names = ds.cols ++ [s.name] ∧
    ∀ c vs, (s.apply process_batch ds).lookup c = some vs → vs = [] := by
  have happ : s.apply process_batch ds = emptyFrame (ds.cols ++ [s.name]) := by
    rw [Skill.apply, h]
    rfl
  refine ⟨happ, ?_, ?_⟩
  · rw [happ]
    show ((ds.cols ++ [s.name]).map _).map Prod.fst = _
    rw [List.map_map]
    have hid : (Prod.fst ∘ fun n : String => (n, ([] : List Value))) = id := rfl
    rw [hid, List.map_id]
  · intro c vs hvs
    rw [happ, Frame.lookup] at hvs
    rcases hfind : (emptyFrame (ds.cols ++ [s.name])).cols.find? (fun p => p.1 == c) with _ | q
    · rw [hfind] at hvs
      cases hvs
    · rw [hfind] at hvs
      have hq : q ∈ (ds.cols ++ [s.name]).map (fun n => (n, ([] : List Value))) :=
        List.mem_of_find?_eq_some hfind
      obtain ⟨n, _, hn⟩ := List.mem_map.mp hq
      have hv2 : q.2 = vs := by simpa using hvs
      rw [← hv2, ← hn]

/-- Witness for C2: dataset columns `text`, no batches, skill `sentiment`:
the result is the empty frame with columns `text`, `sentiment`. -/
theorem c2_witness :
    Skill.apply ⟨"sentiment", "", "", "i", "o", some "text", "predictions", []⟩
        (fun b => b) ⟨["text"], []⟩ = emptyFrame ["text", "sentiment"] ∧
    (Skill.apply ⟨"sentiment", "", "", "i", "o", some "text", "predictions", []⟩
        (fun b => b) ⟨["text"], []⟩).names = ["text", "sentiment"] := by
  have h := c2_empty_dataset_schema
    ⟨"sentiment", "", "", "i", "o", some "text", "predictions", []⟩
    (fun b => b) ⟨["text"], []⟩ rfl
  exact ⟨h.1, h.2.1⟩

/-! ## Claim C5 -/

theorem filterMap_length_all_some {α β : Type} (g : α → Option β) (l : List α)
    (h : ∀ a ∈ l, (g a).isSome = true) : (l.filterMap g).length = l.length := by
  induction l with
  | nil => rfl
  | cons a l ih =>
    rcases hg : g a with _ | b
    · have := h a (List.mem_cons_self a l)
      rw [hg] at this
      cases this
    · rw [List.filterMap_cons_some hg, List.length_cons, List.length_cons,
        ih fun x hx => h x (List.mem_cons_of_mem a hx)]

/-- Claim C5: the Error Sampler draws exactly `min(max_errors, |errors|)` rows,
without replacement (the chosen index list is duplicate-free), every sampled
row is a row of the error set, and the sampling step inside `analyze`
(`errors.sample(n=min(MAX_ERRORS, errors.shape[0]))`) is this sampler at
`MAX_ERRORS = 3`.  The unseeded uniform random source is injected as `perm`,
a permutation of the row indices. -/
theorem c5_sampler_bound {α : Type} (perm : List Nat) (rows : List α) (n : Nat)
    (h1 : perm.Nodup) (h2 : rows.length ≤ perm.length)
    (h3 : ∀ i ∈ perm, i < rows.length) :
    (sampleRows perm rows n).length = min n rows.length ∧
    (perm.take (min n rows.length)).Nodup ∧
    (∀ r ∈ sampleRows perm rows n, r ∈ rows) ∧
    Skill.analyzeSampleErrors perm rows = sampleRows perm rows MAX_ERRORS := by
  refine ⟨?_, ?_, ?_, ?_⟩
  · rw [sampleRows, filterMap_length_all_some]
    · rw [List.length_take]
      have hle : min n rows.length ≤ perm.length :=
        le_trans (min_le_right _ _) h2
      omega
    · intro i hi
      have hilt : i < rows.length := h3 i (List.mem_of_mem_take hi)
      have : rows[i]? = some (rows.get ⟨i, hilt⟩) :=
        List.getElem?_eq_some.mpr ⟨hilt, rfl⟩
      rw [this]
      rfl
  · exact List.Nodup.sublist (List.take_sublist _ _) h1
  · intro r hr
    obtain ⟨i, _, hgi⟩ := List.mem_filterMap.mp hr
    exact List.getElem?_mem hgi
  · rw [Skill.analyzeSampleErrors, sampleRows, sampleRows]
    have hmm : min (min MAX_ERRORS rows.length) rows.length = min MAX_ERRORS rows.length := by
      omega
    rw [hmm]

/-- Witness for C5: an error set of size 2 sampled with bound 3 returns
exactly `min 3 2 = 2` rows, and the empty error set yields the empty sample
without any error. -/
theorem c5_witness :
    (sampleRows [1, 0] ["e1", "e2"] 3).length = min 3 2 ∧
    (sampleRows ([] : List Nat) ([] : List String) 3).length = min 3 0 ∧
    sampleRows ([] : List Nat) ([] : List String) 3 = [] := by
  have ha := c5_sampler_bound [1, 0] ["e1", "e2"] 3 (by decide) (by decide)
    (by decide)
  have hb := c5_sampler_bound ([] : List Nat) ([] : List String) 3 (by decide)
    (by decide) (by decide)
  refine ⟨ha.1, hb.1, ?_⟩
  have h0 := hb.1
  simp only [List.length_nil, Nat.min_zero, List.length_eq_zero] at h0
  exact h0

/-! ## Claim C6 -/

/-- Claim C6: extra-configuration-field extraction returns exactly the
descriptor's fields outside the reserved system set, each with its value, and
no reserved field: `_get_extra_fields` equals the descriptor's own extra
field list (pydantic keeps field names unique, so extra names avoid the
reserved set — stated here as the hypothesis). -/
theorem c6_extra_fields_exact (s : Skill)
    (h : ∀ kv ∈ s.extra, kv.1 ∉ systemFields) :
    s.get_extra_fields = s.extra ∧
    (∀ f ∈ systemFields, f ∉ s.get_extra_fields.map Prod.fst) ∧
    ∀ kv ∈ s.extra, kv ∈ s.get_extra_fields := by
  have h1 : s.get_extra_fields = s.extra := by
    rw [Skill.get_extra_fields, modelDump, List.filter_append]
    have h7 : List.filter (fun kv => !(systemFields.contains kv.1))
        ([("name", Value.str s.name), ("instructions", Value.str s.instructions),
          ("description", Value.str s.description),
          ("input_template", Value.str s.input_template),
          ("output_template", Value.str s.output_template),
          ("input_data_field", Value.optStr s.input_data_field),
          ("prediction_field", Value.str s.prediction_field)]) = [] := by
      simp +decide [List.filter_cons, systemFields]
    rw [h7, List.nil_append]
    refine List.filter_eq_self.mpr fun kv hkv => ?_
    have := h kv hkv
    simp [List.contains, List.elem_eq_mem, this]
  refine ⟨h1, ?_, ?_⟩
  · intro f hf hmem
    rw [h1] at hmem
    obtain ⟨kv, hkv, hkv1⟩ := List.mem_map.mp hmem
    exact h kv hkv (hkv1 ▸ hf)
  · intro kv hkv
    rw [h1]
    exact hkv

/-- Witness for C6: a descriptor with the extra field
`labels = [pos, neg]` yields exactly that as its extra configuration. -/
theorem c6_witness :
    Skill.get_extra_fields
        ⟨"classify", "Label the input text", "", "i", "o", some "text",
         "predictions", [("labels", Value.strList ["pos", "neg"])]⟩ =
      [("labels", Value.strList ["pos", "neg"])] :=
  (c6_extra_fields_exact _ (by decide)).1

/-! ## Claim C7 -/

/-- Claim C7: a successful `improve` call replaces only `instructions` (with
the string the backend returned under `new_instruction`); every other field
of the descriptor — name, description, both templates, `input_data_field`,
`prediction_field` and all extra configuration fields — is identical before
and after the call. -/
theorem c7_improve_only_instructions (s : Skill) (ea : String)
    (process_record : Record → Except BackendErr Record) (s' : Skill)
    (h : s.improve ea process_record = (s', none)) :
    s'.name = s.name ∧ s'.description = s.description ∧
    s'.input_template = s.input_template ∧
    s'.output_template = s.output_template ∧
    s'.input_data_field = s.input_data_field ∧
    s'.prediction_field = s.prediction_field ∧ s'.extra = s.extra ∧
    ∃ r, process_record [("error_analysis", ea)] = .ok r ∧
      lookupRecord r "new_instruction" = some s'.instructions := by
  rcases hpr : process_record [("error_analysis", ea)] with e | r
  · simp only [Skill.improve, hpr] at h
    exact absurd (congrArg Prod.snd h) (by simp)
  · simp only [Skill.improve, hpr] at h
    rcases hlk : lookupRecord r "new_instruction" with _ | ni
    · simp only [hlk] at h
      exact absurd (congrArg Prod.snd h) (by simp)
    · simp only [hlk] at h
      have hs : ({ s with instructions := ni } : Skill) = s' := congrArg Prod.fst h
      rw [← hs]
      exact ⟨rfl, rfl, rfl, rfl, rfl, rfl, rfl, r, rfl, by rw [hlk]⟩

/-- Witness for C7: a backend answering `new_instruction = Do better` updates
exactly the instructions. -/
theorem c7_witness :
    Skill.improve ⟨"s", "old", "d", "i", "o", some "text", "predictions", []⟩
        "report" (fun _ => .ok [("new_instruction", "Do better")]) =
      (⟨"s", "Do better", "d", "i", "o", some "text", "predictions", []⟩, none) ∧
    (⟨"s", "Do better", "d", "i", "o", some "text", "predictions", []⟩ : Skill).name = "s" ∧
    (⟨"s", "Do better", "d", "i", "o", some "text", "predictions", []⟩ : Skill).extra = [] := by
  have h := c7_improve_only_instructions
    ⟨"s", "old", "d", "i", "o", some "text", "predictions", []⟩ "report"
    (fun _ => .ok [("new_instruction", "Do better")])
    ⟨"s", "Do better", "d", "i", "o", some "text", "predictions", []⟩ (by decide)
  exact ⟨by decide, h.1, h.2.2.2.2.2.2.1⟩

/-! ## Claim C8 -/

/-- Claim C8: if the backend call made by `improve` raises, the call aborts
with that error and the skill descriptor is left entirely unchanged — in
particular `instructions` still holds its pre-call value; the new
instructions are committed only from a successful backend response. -/
theorem c8_improve_atomic_on_failure (s : Skill) (ea : String)
    (process_record : Record → Except BackendErr Record) (e : BackendErr)
    (h : process_record [("error_analysis", ea)] = .error e) :
    s.improve ea process_record = (s, some (.backendError e)) := by
  rw [Skill.improve, h]

/-- Witness for C8: a backend that raises leaves the descriptor untouched,
including its old instructions. -/
theorem c8_witness :
    Skill.improve ⟨"s", "old", "d", "i", "o", some "text", "predictions", []⟩
        "report" (fun _ => .error (.backendFailure "rate limit")) =
      (⟨"s", "old", "d", "i", "o", some "text", "predictions", []⟩,
       some (.backendError (.backendFailure "rate limit"))) :=
  c8_improve_atomic_on_failure _ _ _ _ rfl

end Adala
